import Mathlib

/-!
# Verification of the Spectra ML-service post-processing core

Shallow embedding of `src/backend/ml-service/server.py`: the confidence
estimation (`calculate_confidence`), direction classification, the single
`/predict` pipeline and the `/batch-predict` pipeline, with the external
TimesFM model abstracted as a function argument.

Python floats are modelled as exact rationals (`ℚ`); Python exceptions as
`Option`/`Except` failures; JSON-ish heterogeneous values (the `quantiles`
argument) as the inductive `PyObj`.
-/

namespace Spectra

/-- A Python value as it can reach `calculate_confidence` via JSON / `.tolist()`:
a number, a string (a stand-in for any non-numeric scalar), or a list. -/
inductive PyObj where
  | num (q : ℚ)
  | str (s : String)
  | list (l : List PyObj)

mutual

def PyObj.decEq : (a b : PyObj) → Decidable (a = b)
  | .num a, .num b =>
    if h : a = b then .isTrue (by rw [h]) else .isFalse (fun hc => h (PyObj.num.inj hc))
  | .str a, .str b =>
    if h : a = b then .isTrue (by rw [h]) else .isFalse (fun hc => h (PyObj.str.inj hc))
  | .list a, .list b =>
    match PyObj.decEqList a b with
    | .isTrue h => .isTrue (by rw [h])
    | .isFalse h => .isFalse (fun hc => h (PyObj.list.inj hc))
  | .num _, .str _ => .isFalse (fun hc => PyObj.noConfusion hc)
  | .num _, .list _ => .isFalse (fun hc => PyObj.noConfusion hc)
  | .str _, .num _ => .isFalse (fun hc => PyObj.noConfusion hc)
  | .str _, .list _ => .isFalse (fun hc => PyObj.noConfusion hc)
  | .list _, .num _ => .isFalse (fun hc => PyObj.noConfusion hc)
  | .list _, .str _ => .isFalse (fun hc => PyObj.noConfusion hc)

def PyObj.decEqList : (a b : List PyObj) → Decidable (a = b)
  | [], [] => .isTrue rfl
  | a :: as, b :: bs =>
    match PyObj.decEq a b, PyObj.decEqList as bs with
    | .isTrue h1, .isTrue h2 => .isTrue (by rw [h1, h2])
    | .isFalse h1, _ => .isFalse (fun hc => h1 (List.cons.inj hc).1)
    | _, .isFalse h2 => .isFalse (fun hc => h2 (List.cons.inj hc).2)
  | [], _ :: _ => .isFalse (fun hc => List.noConfusion hc)
  | _ :: _, [] => .isFalse (fun hc => List.noConfusion hc)

end

instance : DecidableEq PyObj := PyObj.decEq

/-- `min(90, max(40, 50 + abs(price_change) * 5))` — the heuristic fallback
expression, appearing verbatim at lines 253 and 270 of server.py.
Note: no `int(...)` truncation is applied on this path in the source. -/
def heuristicConf (price_change : ℚ) : ℚ :=
  min 90 (max 40 (50 + |price_change| * 5))

/-- Line 258: `last_quantiles = quantiles[-1] if isinstance(quantiles[-1], list) else quantiles`.
Returns the resolved last-step quantile set, or `none` when the Python code
would raise inside the `try` block at this point:
indexing a number raises `TypeError`; `[-1]` on an empty list raises
`IndexError`.  A string is also mapped to `none`: `s[-1]` on an empty string
raises, and on a non-empty string the later subtraction of characters
(line 260) raises `TypeError`, so the observable result is the same fallback. -/
def resolveLast : PyObj → Option (List PyObj)
  | .num _ => none
  | .str _ => none
  | .list l =>
    match l.getLast? with
    | none => none
    | some e =>
      match e with
      | .list l2 => some l2
      | _ => some l

/-- Extract the numeric values of a quantile set; `none` when any element is
non-numeric, in which case the arithmetic at lines 260–261 (`-` on the
endpoints, `np.mean` over the set) raises and the code falls back. -/
def asNums : List PyObj → Option (List ℚ)
  | [] => some []
  | .num q :: t => (asNums t).map (fun r => q :: r)
  | .str _ :: _ => none
  | .list _ :: _ => none

/-- Lines 260–266 on the numeric quantile set `qs`:
`spread = abs(last_quantiles[-1] - last_quantiles[0])` is
`|qs.getLastD 0 - qs.headD 0|`, `mean_val = abs(np.mean(last_quantiles))` is
`|qs.sum / qs.length|`, and under `mean_val > 0` the result is
`int(max(40, min(95, 90 - relative_spread * 50)))`. -/
def quantileConf (qs : List ℚ) : Option ℚ :=
  if 0 < |qs.sum / (qs.length : ℚ)| then
    some ((⌊max 40 (min 95 (90 -
      (|qs.getLastD 0 - qs.headD 0| / |qs.sum / (qs.length : ℚ)|) * 50))⌋ : ℤ) : ℚ)
  else none

/-- The `try` block of `calculate_confidence` (lines 255–266): `some c` when the
quantile path produces a confidence `c`, `none` when it raises or falls
through (fewer than 2 values, or `mean_val > 0` fails).
`int(...)` truncates toward zero; the clamped value is ≥ 40 > 0 so it equals
the floor. -/
def quantilePath (obj : PyObj) : Option ℚ :=
  match resolveLast obj with
  | none => none
  | some lastQ =>
    if 2 ≤ lastQ.length then
      match asNums lastQ with
      | none => none
      | some qs => quantileConf qs
    else none

/-- `calculate_confidence(quantiles, price_change)`, lines 247–270. -/
def calculate_confidence (quantiles : Option PyObj) (price_change : ℚ) : ℚ :=
  match quantiles with
  | none => heuristicConf price_change
  | some obj =>
    match quantilePath obj with
    | some c => c
    | none => heuristicConf price_change

/-- The direction classification appearing inline in both `predict`
(lines 133–138) and `batch_predict` (lines 218–223). -/
def direction (price_change : ℚ) : String :=
  if price_change > 1 then "up"
  else if price_change < -1 then "down"
  else "neutral"

/-- Round-half-to-even to an integer, the tie-breaking rule of Python `round`. -/
def roundHalfEven (q : ℚ) : ℤ :=
  let f := ⌊q⌋
  let r := q - (f : ℚ)
  if r < 1/2 then f
  else if 1/2 < r then f + 1
  else if f % 2 = 0 then f else f + 1

/-- Python `round(x, 2)` modelled over exact rationals. -/
def round2 (x : ℚ) : ℚ := ((roundHalfEven (x * 100) : ℤ) : ℚ) / 100

/-- Python slice `l[:n]`, including the negative-bound case. -/
def pyTake {α : Type} (l : List α) (n : ℤ) : List α :=
  if 0 ≤ n then l.take n.toNat else l.take ((l.length : ℤ) + n).toNat

/-- Python `max` over a list of integers (the `max(horizons)` of line 199);
the `[]` case is unreachable behind the emptiness guard of line 195. -/
def listMax : List ℤ → ℤ
  | [] => 0
  | h :: t => t.foldl max h

/-- One prediction request item: `data.get('symbol', 'UNKNOWN')`,
`data.get('prices', [])`, `data.get('horizon', 7)` — absent keys are the
`none` case of the optional fields. -/
structure PredReq where
  symbol : Option String
  prices : List ℚ
  horizon : Option ℤ
deriving DecidableEq

/-- The output of one `model.forecast(horizon, inputs)` call: per-input point
forecasts, and per-input step×quantile arrays when the quantile head is on
(`None` otherwise). -/
structure ModelOutput where
  points : List (List ℚ)
  quants : Option (List (List (List ℚ)))
deriving DecidableEq

/-- The external TimesFM model, abstracted: horizon and inputs to output. -/
abbrev Model := ℤ → List (List ℚ) → ModelOutput

/-- `.tolist()` of a step×quantile array, as it reaches `calculate_confidence`. -/
def toPy2 (steps : List (List ℚ)) : PyObj :=
  .list (steps.map (fun s => .list (s.map .num)))

/-- The JSON keys of the single-prediction response object (lines 143–154). -/
def singleResultKeys : List String :=
  ["symbol", "direction", "confidence", "predicted_change", "predicted_price",
   "forecast", "quantiles", "horizon", "model_version", "timestamp"]

/-- The JSON keys of one element of `predictions` in the batch response
(lines 227–235). -/
def batchItemKeys : List String :=
  ["symbol", "direction", "confidence", "predicted_change", "predicted_price",
   "forecast", "horizon"]

/-- The single-prediction response body (lines 143–154); the run-time
timestamp is not modelled. -/
structure SingleResult where
  symbol : String
  direction : String
  confidence : ℚ
  predicted_change : ℚ
  predicted_price : ℚ
  forecast : List ℚ
  quantiles : Option PyObj
  horizon : ℤ
  model_version : String
deriving DecidableEq

/-- Errors of the single `/predict` path: a 400 for short history, a 500 for
any exception inside the handler (model output misalignment at line 124/125,
`ZeroDivisionError` at line 130). -/
inductive PredError where
  | insufficientHistory
  | predictionException
deriving DecidableEq

/-- `if horizon not in [1, 7, 30]: horizon = 7` (lines 111–112). -/
def normalizeHorizon (h : ℤ) : ℤ :=
  if h = 1 ∨ h = 7 ∨ h = 30 then h else 7

/-- Final assembly of the single response from the values computed by the
handler (lines 128–154). -/
def finishSingle (symbol : String) (horizon : ℤ) (forecast : List ℚ)
    (quantiles : Option PyObj) (last_price : ℚ) : SingleResult :=
  let predicted_price := forecast.getLastD last_price
  let price_change := (predicted_price - last_price) / last_price * 100
  { symbol := symbol
    direction := direction price_change
    confidence := calculate_confidence quantiles price_change
    predicted_change := round2 price_change
    predicted_price := round2 predicted_price
    forecast := forecast.map round2
    quantiles := quantiles
    horizon := horizon
    model_version := "timesfm-2.5-200m" }

/-- Line 125: `quantiles = quantile_forecast[0].tolist() if quantile_forecast
is not None else None`; an index misalignment is a caught exception (500). -/
def predictQuants (out : ModelOutput) : Except PredError (Option PyObj) :=
  match out.quants with
  | none => .ok none
  | some ql =>
    match ql.get? 0 with
    | none => .error .predictionException
    | some q => .ok (some (toPy2 q))

/-- The `/predict` handler (lines 94–158), past the request-framing checks.
`prices[-1]` cannot fail behind the ≥ 30 check; a zero last price makes the
Python division raise `ZeroDivisionError`, caught as a 500. -/
def predict (model : Model) (req : PredReq) : Except PredError SingleResult :=
  let symbol := req.symbol.getD "UNKNOWN"
  let prices := req.prices
  if prices.length < 30 then .error .insufficientHistory
  else
    let horizon := normalizeHorizon (req.horizon.getD 7)
    let out := model horizon [prices]
    match out.points.get? 0 with
    | none => .error .predictionException
    | some forecast =>
      match predictQuants out with
      | .error e => .error e
      | .ok quantiles =>
        match prices.getLast? with
        | none => .error .predictionException
        | some last_price =>
          if last_price = 0 then .error .predictionException
          else .ok (finishSingle symbol horizon forecast quantiles last_price)

/-- One element of the batch `predictions` list (lines 227–235). -/
structure BatchItemResult where
  symbol : String
  direction : String
  confidence : ℚ
  predicted_change : ℚ
  predicted_price : ℚ
  forecast : List ℚ
  horizon : ℤ
deriving DecidableEq

/-- The batch response body (lines 237–241); run-time timestamp not modelled. -/
structure BatchResp where
  predictions : List BatchItemResult
  model_version : String
deriving DecidableEq

/-- Errors of `/batch-predict`: the two 400s of lines 181 and 196, and the 500
for an exception while processing results (index misalignment with the model
output). -/
inductive BatchErr where
  | noRequests
  | noValidInputs
  | processingException
deriving DecidableEq

/-- `if len(prices) >= 30` (line 190): the only per-item acceptance test. -/
def validItem (req : PredReq) : Bool :=
  decide (30 ≤ req.prices.length)

/-- Assembly of one batch result entry from the values of lines 210–235.
Note: in Python `last_price` is an `np.float32`, so a zero baseline gives a
non-finite `price_change` rather than an exception; that case is outside
this rational model and every theorem touching it assumes a nonzero last
price. -/
def finishItem (symbol : String) (horizon : ℤ) (pf : List ℚ)
    (quantiles : Option PyObj) (last_price : ℚ) : BatchItemResult :=
  let forecast := pyTake pf horizon
  let predicted_price := forecast.getLastD last_price
  let price_change := (predicted_price - last_price) / last_price * 100
  { symbol := symbol
    direction := direction price_change
    confidence := calculate_confidence quantiles price_change
    predicted_change := round2 price_change
    predicted_price := round2 predicted_price
    forecast := forecast.map round2
    horizon := horizon }

/-- The body of the `for i, symbol in enumerate(symbols)` loop (lines
209–235) for index `i`; `none` when a Python index error would occur. -/
def processItem (pts : List (List ℚ)) (qts : Option (List (List (List ℚ))))
    (inputs : List (List ℚ)) (symbols : List String) (horizons : List ℤ)
    (i : ℕ) : Option BatchItemResult := do
  let symbol ← symbols.get? i
  let horizon ← horizons.get? i
  let pf ← pts.get? i
  let quantiles ← (match qts with
    | none => some (none : Option PyObj)
    | some ql => (ql.get? i).map (fun q => some (toPy2 (pyTake q horizon))))
  let priceList ← inputs.get? i
  let last_price ← priceList.getLast?
  some (finishItem symbol horizon pf quantiles last_price)

/-- Run the result loop over a list of indices, collecting results in order. -/
def buildResults (pts : List (List ℚ)) (qts : Option (List (List (List ℚ))))
    (inputs : List (List ℚ)) (symbols : List String) (horizons : List ℤ) :
    List ℕ → Option (List BatchItemResult)
  | [] => some []
  | i :: rest => do
    let r ← processItem pts qts inputs symbols horizons i
    let rs ← buildResults pts qts inputs symbols horizons rest
    some (r :: rs)

/-- The accumulation loop of lines 188–193: the items that pass the
per-item length check, in order. -/
def acceptedItems (items : List PredReq) : List PredReq :=
  items.filter validItem

/-- The `symbols` list of line 191. -/
def batchSymbols (items : List PredReq) : List String :=
  (acceptedItems items).map (fun it => it.symbol.getD "UNKNOWN")

/-- The `inputs` list of line 192. -/
def batchInputs (items : List PredReq) : List (List ℚ) :=
  (acceptedItems items).map (fun it => it.prices)

/-- The `horizons` list of line 193 — note: the raw request value with
default 7, with no membership check against {1, 7, 30}. -/
def batchHorizons (items : List PredReq) : List ℤ :=
  (acceptedItems items).map (fun it => it.horizon.getD 7)

/-- The `/batch-predict` handler (lines 160–245).  The second component
records the calls issued to the external model, each as
(horizon, inputs) — the source makes exactly one such call, at line 202,
only after both validation gates pass. -/
def batch_predict (model : Model) (items : List PredReq) :
    Except BatchErr BatchResp × List (ℤ × List (List ℚ)) :=
  if items.isEmpty then (.error .noRequests, [])
  else
    let symbols := batchSymbols items
    let inputs := batchInputs items
    let horizons := batchHorizons items
    if inputs.isEmpty then (.error .noValidInputs, [])
    else
      let max_horizon := listMax horizons
      let out := model max_horizon inputs
      match buildResults out.points out.quants inputs symbols horizons
          (List.range symbols.length) with
      | none => (.error .processingException, [(max_horizon, inputs)])
      | some results =>
        (.ok { predictions := results, model_version := "timesfm-2.5-200m" },
         [(max_horizon, inputs)])

/-! ## General lemmas -/

theorem getLast?_replicate {α : Type} (n : ℕ) (a : α) (h : n ≠ 0) :
    (List.replicate n a).getLast? = some a := by
  induction n with
  | zero => exact absurd rfl h
  | succ m ih =>
    rw [List.replicate_succ]
    cases m with
    | zero => rfl
    | succ k =>
      rw [List.replicate_succ, List.getLast?_cons_cons, ← List.replicate_succ]
      exact ih (Nat.succ_ne_zero k)

theorem heuristicConf_ge (pc : ℚ) : 40 ≤ heuristicConf pc :=
  le_min (by norm_num) (le_max_left _ _)

theorem heuristicConf_le (pc : ℚ) : heuristicConf pc ≤ 90 :=
  min_le_left _ _

/-- The quantile path, when it succeeds, yields the cast of an integer
lying in [40, 95]. -/
theorem quantileConf_bounds {qs : List ℚ} {c : ℚ} (h : quantileConf qs = some c) :
    ∃ z : ℤ, c = (z : ℚ) ∧ 40 ≤ z ∧ z ≤ 95 := by
  unfold quantileConf at h
  split at h
  · refine ⟨_, (Option.some.inj h).symm, ?_, ?_⟩
    · exact Int.le_floor.mpr (by exact_mod_cast le_max_left _ _)
    · have h95 : (max 40 (min 95 (90 -
          (|qs.getLastD 0 - qs.headD 0| / |qs.sum / (qs.length : ℚ)|) * 50)) : ℚ) ≤ 95 :=
        max_le (by norm_num) (min_le_left _ _)
      have := (Int.floor_le (α := ℚ) _).trans h95
      exact_mod_cast this
  · exact absurd h (by simp)

theorem quantilePath_bounds {obj : PyObj} {c : ℚ} (h : quantilePath obj = some c) :
    ∃ z : ℤ, c = (z : ℚ) ∧ 40 ≤ z ∧ z ≤ 95 := by
  unfold quantilePath at h
  split at h
  · exact absurd h (by simp)
  · split at h
    · split at h
      · exact absurd h (by simp)
      · exact quantileConf_bounds h
    · exact absurd h (by simp)

/-! ## C1 -/

/-- C1 counterexample: on the heuristic fallback path `calculate_confidence`
returns `52.5` for a percent change of `0.5` — a non-integer value (its
reduced denominator is 2, while every integer has denominator 1).  The claim
that the returned confidence is always an integer is therefore false. -/
theorem calculate_confidence_fallback_not_integer :
    calculate_confidence none (1/2) = mkRat 105 2 ∧ (mkRat 105 2).den = 2 ∧
    ∀ z : ℤ, ((z : ℚ)).den = 1 := by
  refine ⟨?_, by decide, fun z => Rat.den_intCast z⟩
  show heuristicConf (1/2) = mkRat 105 2
  rw [heuristicConf, abs_of_pos (by norm_num : (0:ℚ) < 1/2), min_def, max_def]
  norm_num [Rat.mkRat_eq_div]

/-- C1 (amended): for every quantiles argument and percent change, the value of
`calculate_confidence` either comes from the quantile path — then it is the
cast of an integer in [40, 95] — or equals the heuristic fallback value
`min 90 (max 40 (50 + |pc| * 5))`, a rational (not necessarily integer) in
[40, 90]. -/
theorem calculate_confidence_bounds (q : Option PyObj) (pc : ℚ) :
    (∃ z : ℤ, calculate_confidence q pc = (z : ℚ) ∧ 40 ≤ z ∧ z ≤ 95) ∨
    (calculate_confidence q pc = heuristicConf pc ∧
      40 ≤ heuristicConf pc ∧ heuristicConf pc ≤ 90) := by
  cases q with
  | none => exact Or.inr ⟨rfl, heuristicConf_ge pc, heuristicConf_le pc⟩
  | some obj =>
    cases hq : quantilePath obj with
    | none => exact Or.inr ⟨by simp [calculate_confidence, hq],
        heuristicConf_ge pc, heuristicConf_le pc⟩
    | some c =>
      obtain ⟨z, hz, h40, h95⟩ := quantilePath_bounds hq
      exact Or.inl ⟨z, by simp [calculate_confidence, hq, hz], h40, h95⟩

/-! ## C5 -/

/-- C5: `calculate_confidence` never raises; on every malformed quantiles
structure — an empty list, a single scalar value, a one-element list, a list
with a non-numeric element — it returns exactly the heuristic fallback value
(the failure is swallowed and the computation degrades). -/
theorem calculate_confidence_malformed_fallback (pc x : ℚ) (s : String) :
    calculate_confidence (some (.list [])) pc = heuristicConf pc ∧
    calculate_confidence (some (.num x)) pc = heuristicConf pc ∧
    calculate_confidence (some (.str s)) pc = heuristicConf pc ∧
    calculate_confidence (some (.list [.num x])) pc = heuristicConf pc ∧
    calculate_confidence (some (.list [.str s, .num x])) pc = heuristicConf pc :=
  ⟨rfl, rfl, rfl, rfl, rfl⟩

/-! ## C7 -/

/-- C7: the direction is "up" exactly when the percent change exceeds 1,
"down" exactly when it is below -1, and "neutral" otherwise; the boundary
values 1 and -1 classify as "neutral". -/
theorem direction_thresholds (pc : ℚ) :
    (direction pc = "up" ↔ 1 < pc) ∧
    (direction pc = "down" ↔ pc < -1) ∧
    (direction pc = "neutral" ↔ (-1 ≤ pc ∧ pc ≤ 1)) ∧
    direction (1 : ℚ) = "neutral" ∧ direction (-1 : ℚ) = "neutral" := by
  refine ⟨?_, ?_, ?_, by norm_num [direction], by norm_num [direction]⟩
  · by_cases h1 : 1 < pc <;> by_cases h2 : pc < -1 <;>
      simp [direction, h1, h2]
  · by_cases h1 : 1 < pc <;> by_cases h2 : pc < -1 <;>
      simp [direction, h1, h2] <;> linarith
  · constructor
    · intro h
      by_cases h1 : 1 < pc
      · simp [direction, h1] at h
      · by_cases h2 : pc < -1
        · simp [direction, h1, h2] at h
        · exact ⟨not_lt.mp h2, not_lt.mp h1⟩
    · rintro ⟨ha, hb⟩
      simp [direction, not_lt.mpr hb, not_lt.mpr ha]

/-! ## Quantile-path inversion lemmas -/

theorem asNums_length {l : List PyObj} {qs : List ℚ} (h : asNums l = some qs) :
    qs.length = l.length := by
  induction l generalizing qs with
  | nil => simp [asNums] at h; simp [← h]
  | cons a t ih =>
    cases a with
    | num q =>
      simp only [asNums, Option.map_eq_some'] at h
      obtain ⟨r, hr, rfl⟩ := h
      simp [ih hr]
    | str s => simp [asNums] at h
    | list l2 => simp [asNums] at h

theorem sorted_le_getLast? {qs : List ℚ} (hs : qs.Sorted (· ≤ ·)) {x y : ℚ}
    (hx : x ∈ qs) (hy : qs.getLast? = some y) : x ≤ y := by
  induction qs with
  | nil => cases hx
  | cons a t ih =>
    cases t with
    | nil =>
      simp at hx hy
      simp [hx, hy]
    | cons b u =>
      rw [List.getLast?_cons_cons] at hy
      rcases List.mem_cons.mp hx with rfl | hxt
      · have hmem : y ∈ b :: u := List.mem_of_getLast?_eq_some hy
        exact List.rel_of_sorted_cons hs y hmem
      · exact ih hs.of_cons hxt hy

theorem sorted_head?_le {qs : List ℚ} (hs : qs.Sorted (· ≤ ·)) {x y : ℚ}
    (hx : x ∈ qs) (hy : qs.head? = some y) : y ≤ x := by
  cases qs with
  | nil => cases hx
  | cons a t =>
    simp at hy
    rcases List.mem_cons.mp hx with rfl | hxt
    · simp [hy]
    · exact hy ▸ List.rel_of_sorted_cons hs x hxt

theorem quantilePath_eq_quantileConf {obj : PyObj} {l : List PyObj} {qs : List ℚ}
    (hres : resolveLast obj = some l) (hnum : asNums l = some qs)
    (hlen : 2 ≤ l.length) :
    quantilePath obj = quantileConf qs := by
  simp only [quantilePath, hres, if_pos hlen, hnum]

theorem quantileConf_of_mean_ne_zero {qs : List ℚ}
    (hmean : qs.sum / (qs.length : ℚ) ≠ 0) :
    quantileConf qs = some ((⌊max 40 (min 95 (90 -
      (|qs.getLastD 0 - qs.headD 0| / |qs.sum / (qs.length : ℚ)|) * 50))⌋ : ℤ) : ℚ) := by
  rw [quantileConf, if_pos (abs_pos.mpr hmean)]

theorem quantilePath_eq_none_short {obj : PyObj} {l : List PyObj}
    (hres : resolveLast obj = some l) (hlen : l.length < 2) :
    quantilePath obj = none := by
  simp only [quantilePath, hres, if_neg (not_le.mpr hlen)]

theorem quantilePath_eq_none_zero_mean {obj : PyObj} {l : List PyObj} {qs : List ℚ}
    (hres : resolveLast obj = some l) (hnum : asNums l = some qs)
    (hlen : 2 ≤ l.length) (hmean : qs.sum / (qs.length : ℚ) = 0) :
    quantilePath obj = none := by
  rw [quantilePath_eq_quantileConf hres hnum hlen, quantileConf, hmean]
  simp

theorem calculate_confidence_of_path_some {obj : PyObj} {c : ℚ} (pc : ℚ)
    (h : quantilePath obj = some c) : calculate_confidence (some obj) pc = c := by
  simp [calculate_confidence, h]

theorem calculate_confidence_of_path_none {obj : PyObj} (pc : ℚ)
    (h : quantilePath obj = none) :
    calculate_confidence (some obj) pc = heuristicConf pc := by
  simp [calculate_confidence, h]

/-! ## C6 -/

/-- C6: on the quantile path — resolved last-step quantile set of at least 2
numeric values with nonzero mean — the confidence equals the integer
truncation of `clamp(90 - (|highest - lowest| / |mean|) * 50, 40, 95)`,
where highest/lowest are the maximum/minimum of the (ascending) quantile
set; when the set has fewer than 2 values, or its mean is zero, the
heuristic fallback `clamp(50 + |pc| * 5, 40, 90)` is returned instead. -/
theorem confidence_quantile_path_formula
    (obj : PyObj) (l : List PyObj) (qs : List ℚ) (pc hi lo : ℚ)
    (hres : resolveLast obj = some l) (hnum : asNums l = some qs)
    (hlen : 2 ≤ l.length)
    (hsorted : qs.Sorted (· ≤ ·))
    (hhi : hi ∈ qs) (hhimax : ∀ x ∈ qs, x ≤ hi)
    (hlo : lo ∈ qs) (hlomin : ∀ x ∈ qs, lo ≤ x)
    (hmean : qs.sum / (qs.length : ℚ) ≠ 0) :
    (calculate_confidence (some obj) pc =
      ((⌊max 40 (min 95 (90 -
        (|hi - lo| / |qs.sum / (qs.length : ℚ)|) * 50))⌋ : ℤ) : ℚ)) ∧
    (∀ (obj2 : PyObj) (l2 : List PyObj) (pc2 : ℚ),
        resolveLast obj2 = some l2 → l2.length < 2 →
        calculate_confidence (some obj2) pc2 = heuristicConf pc2) ∧
    (∀ (obj3 : PyObj) (l3 : List PyObj) (qs3 : List ℚ) (pc3 : ℚ),
        resolveLast obj3 = some l3 → asNums l3 = some qs3 → 2 ≤ l3.length →
        qs3.sum / (qs3.length : ℚ) = 0 →
        calculate_confidence (some obj3) pc3 = heuristicConf pc3) := by
  refine ⟨?_, ?_, ?_⟩
  · have hqlen : 2 ≤ qs.length := asNums_length hnum ▸ hlen
    have hne : qs ≠ [] := by
      intro hc
      rw [hc] at hqlen
      simp at hqlen
    obtain ⟨y, hy⟩ : ∃ y, qs.getLast? = some y := by
      cases hq : qs.getLast? with
      | none => exact absurd (List.getLast?_eq_none_iff.mp hq) hne
      | some y => exact ⟨y, rfl⟩
    obtain ⟨w, hw⟩ : ∃ w, qs.head? = some w := by
      cases hq : qs.head? with
      | none => exact absurd (List.head?_eq_none_iff.mp hq) hne
      | some w => exact ⟨w, rfl⟩
    have hiy : hi = y :=
      le_antisymm (sorted_le_getLast? hsorted hhi hy)
        (hhimax y (List.mem_of_getLast?_eq_some hy))
    have hlow : lo = w :=
      le_antisymm (hlomin w (List.mem_of_mem_head? (by simp [hw])))
        (sorted_head?_le hsorted hlo hw)
    have hlast : qs.getLastD 0 = hi := by
      rw [show qs.getLastD 0 = (qs.getLast?).getD 0 from by
            cases qs with
            | nil => rfl
            | cons a t => exact List.getLastD_eq_getLast? _ _,
          hy, hiy]
      rfl
    have hhead : qs.headD 0 = lo := by
      rw [List.headD_eq_head?, hw, hlow]
      rfl
    rw [calculate_confidence_of_path_some pc
        ((quantilePath_eq_quantileConf hres hnum hlen).trans
          (quantileConf_of_mean_ne_zero hmean)),
      hlast, hhead]
  · intro obj2 l2 pc2 hres2 hlen2
    exact calculate_confidence_of_path_none pc2 (quantilePath_eq_none_short hres2 hlen2)
  · intro obj3 l3 qs3 pc3 hres3 hnum3 hlen3 hmean3
    exact calculate_confidence_of_path_none pc3
      (quantilePath_eq_none_zero_mean hres3 hnum3 hlen3 hmean3)

/-- Witness for C6: the flat quantile set [1, 3] with percent change 0 —
spread 2, mean 2, relative spread 1, confidence int(90 - 50) = 40. -/
theorem confidence_quantile_path_witness :
    calculate_confidence (some (.list [.num 1, .num 3])) 0 = 40 := by
  have h := (confidence_quantile_path_formula (.list [.num 1, .num 3])
    [.num 1, .num 3] [1, 3] 0 3 1 rfl rfl (by norm_num)
    (by norm_num [List.sorted_cons])
    (by norm_num)
    (by intro x hx; simp at hx; rcases hx with rfl | rfl <;> norm_num)
    (by norm_num)
    (by intro x hx; simp at hx; rcases hx with rfl | rfl <;> norm_num)
    (by norm_num)).1
  rw [h]
  norm_num

/-! ## C10 -/

/-- C10: when the quantile path succeeds (resolved last-step quantile set of
at least 2 numeric values, nonzero mean), the confidence depends only on the
quantiles structure: two calls with the same quantiles and different percent
changes return the same value. -/
theorem confidence_independent_of_price_change
    (obj : PyObj) (l : List PyObj) (qs : List ℚ) (pc1 pc2 : ℚ)
    (hres : resolveLast obj = some l) (hnum : asNums l = some qs)
    (hlen : 2 ≤ l.length) (hmean : qs.sum / (qs.length : ℚ) ≠ 0) :
    calculate_confidence (some obj) pc1 = calculate_confidence (some obj) pc2 := by
  have hq := (quantilePath_eq_quantileConf hres hnum hlen).trans
    (quantileConf_of_mean_ne_zero hmean)
  rw [calculate_confidence_of_path_some pc1 hq, calculate_confidence_of_path_some pc2 hq]

/-- Witness for C10: the nested one-step shape [[2, 4]] with percent changes
0 and 100. -/
theorem confidence_independent_witness :
    calculate_confidence (some (.list [.list [.num 2, .num 4]])) 0 =
    calculate_confidence (some (.list [.list [.num 2, .num 4]])) 100 :=
  confidence_independent_of_price_change _ [.num 2, .num 4] [2, 4] 0 100 rfl rfl
    (by norm_num) (by norm_num)

/-! ## Pipeline lemmas -/

theorem le_foldl_max (t : List ℤ) (a b : ℤ) (h : b ≤ a) : b ≤ t.foldl max a := by
  induction t generalizing a with
  | nil => simpa using h
  | cons x xs ih => exact ih (max a x) (le_trans h (le_max_left a x))

theorem mem_le_foldl_max (t : List ℤ) (a x : ℤ) (hx : x ∈ t) : x ≤ t.foldl max a := by
  induction t generalizing a with
  | nil => cases hx
  | cons y ys ih =>
    rcases List.mem_cons.mp hx with rfl | h
    · exact le_foldl_max ys (max a x) x (le_max_right a x)
    · exact ih (max a y) h

/-- Every member of a nonempty list is bounded by its Python `max`. -/
theorem listMax_ge {l : List ℤ} {x : ℤ} (hx : x ∈ l) : x ≤ listMax l := by
  cases l with
  | nil => cases hx
  | cons h t =>
    rcases List.mem_cons.mp hx with rfl | hmem
    · exact le_foldl_max t x x le_rfl
    · exact mem_le_foldl_max t h x hmem

theorem pyTake_length_of_nonneg {α : Type} (l : List α) (n : ℤ) (h0 : 0 ≤ n)
    (hle : n.toNat ≤ l.length) : (pyTake l n).length = n.toNat := by
  simp [pyTake, if_pos h0, List.length_take, Nat.min_eq_left hle]

/-- Inversion of one successful iteration of the batch result loop. -/
theorem processItem_eq_some {pts : List (List ℚ)} {qts : Option (List (List (List ℚ)))}
    {inputs : List (List ℚ)} {symbols : List String} {horizons : List ℤ} {i : ℕ}
    {r : BatchItemResult} (h : processItem pts qts inputs symbols horizons i = some r) :
    ∃ sym hz pf qv pl lp,
      symbols.get? i = some sym ∧ horizons.get? i = some hz ∧ pts.get? i = some pf ∧
      inputs.get? i = some pl ∧ pl.getLast? = some lp ∧
      r = finishItem sym hz pf qv lp := by
  unfold processItem at h
  simp only [Option.bind_eq_bind, Option.bind_eq_some] at h
  obtain ⟨sym, hsym, hz, hhz, pf, hpf, qv, hqv, pl, hpl, lp, hlp, hr⟩ := h
  exact ⟨sym, hz, pf, qv, pl, lp, hsym, hhz, hpf, hpl, hlp, (Option.some.inj hr).symm⟩

/-- Inversion of the batch result loop: a successful run yields one result
per index, each produced by `processItem`. -/
theorem buildResults_eq_some {pts : List (List ℚ)} {qts : Option (List (List (List ℚ)))}
    {inputs : List (List ℚ)} {symbols : List String} {horizons : List ℤ} :
    ∀ {is : List ℕ} {rs : List BatchItemResult},
      buildResults pts qts inputs symbols horizons is = some rs →
      rs.length = is.length ∧
      ∀ k i, is.get? k = some i → ∃ r, rs.get? k = some r ∧
        processItem pts qts inputs symbols horizons i = some r := by
  intro is
  induction is with
  | nil =>
    intro rs h
    simp only [buildResults, Option.some.injEq] at h
    subst h
    exact ⟨rfl, fun k i hk => by simp at hk⟩
  | cons j tl ih =>
    intro rs h
    simp only [buildResults, Option.bind_eq_bind, Option.bind_eq_some,
      Option.some.injEq] at h
    obtain ⟨r, hr, rs', hrs', hcons⟩ := h
    subst hcons
    obtain ⟨hlen, hget⟩ := ih hrs'
    refine ⟨by simp [hlen], ?_⟩
    intro k i hk
    cases k with
    | zero =>
      simp only [List.get?_cons_zero, Option.some.injEq] at hk
      subst hk
      exact ⟨r, rfl, hr⟩
    | succ k' =>
      simp only [List.get?_cons_succ] at hk ⊢
      exact hget k' i hk

/-- Inversion of a successful batch run: both validation gates passed, the
loop succeeded on every index, and exactly the single recorded model call
was made, at the maximum of the raw accepted horizons. -/
theorem batch_predict_ok {model : Model} {items : List PredReq}
    {resp : BatchResp} {calls : List (ℤ × List (List ℚ))}
    (h : batch_predict model items = (.ok resp, calls)) :
    batchInputs items ≠ [] ∧
    ∃ results,
      buildResults (model (listMax (batchHorizons items)) (batchInputs items)).points
        (model (listMax (batchHorizons items)) (batchInputs items)).quants
        (batchInputs items) (batchSymbols items) (batchHorizons items)
        (List.range (batchSymbols items).length) = some results ∧
      resp = { predictions := results, model_version := "timesfm-2.5-200m" } ∧
      calls = [(listMax (batchHorizons items), batchInputs items)] := by
  unfold batch_predict at h
  simp only [] at h
  split at h
  · simp at h
  · split at h
    · simp at h
    · next hne =>
      refine ⟨fun hc => hne (by simp [hc]), ?_⟩
      split at h
      · simp at h
      · next results heq =>
        obtain ⟨h1, h2⟩ := Prod.mk.injEq .. ▸ h
        exact ⟨results, heq, (Except.ok.inj h1).symm, h2.symm⟩

/-- An empty request list is rejected immediately, before any model call. -/
theorem batch_predict_nil (model : Model) :
    batch_predict model [] = (.error .noRequests, []) := rfl

/-- When every item is dropped by the length check, the batch is rejected
with the second 400, again before any model call. -/
theorem batch_predict_all_dropped {model : Model} {items : List PredReq}
    (hne : items ≠ []) (hall : ∀ it ∈ items, it.prices.length < 30) :
    batch_predict model items = (.error .noValidInputs, []) := by
  have hfilter : acceptedItems items = [] := by
    refine List.filter_eq_nil_iff.mpr (fun it hit => ?_)
    simp only [validItem, decide_eq_true_eq, Bool.not_eq_true, decide_eq_false_iff_not]
    exact not_le.mpr (hall it hit)
  unfold batch_predict
  rw [if_neg (by simpa using hne)]
  rw [if_pos (by simp [batchInputs, hfilter])]

/-- Inversion of one successful iteration of the quantiles extraction of the
single handler. -/
theorem predictQuants_ok {out : ModelOutput} {qv : Option PyObj}
    (h : predictQuants out = .ok qv) :
    (out.quants = none ∧ qv = none) ∨
    (∃ ql q, out.quants = some ql ∧ ql.get? 0 = some q ∧ qv = some (toPy2 q)) := by
  unfold predictQuants at h
  split at h
  · next hq => exact Or.inl ⟨hq, (Except.ok.inj h).symm⟩
  · next ql hq =>
    split at h
    · simp at h
    · next q hget => exact Or.inr ⟨ql, q, hq, hget, (Except.ok.inj h).symm⟩

/-- Inversion of a successful single prediction. -/
theorem predict_ok {model : Model} {req : PredReq} {r : SingleResult}
    (h : predict model req = .ok r) :
    ∃ forecast quantiles lp,
      30 ≤ req.prices.length ∧
      (model (normalizeHorizon (req.horizon.getD 7)) [req.prices]).points.get? 0 =
        some forecast ∧
      predictQuants (model (normalizeHorizon (req.horizon.getD 7)) [req.prices]) =
        .ok quantiles ∧
      req.prices.getLast? = some lp ∧ lp ≠ 0 ∧
      r = finishSingle (req.symbol.getD "UNKNOWN")
        (normalizeHorizon (req.horizon.getD 7)) forecast quantiles lp := by
  unfold predict at h
  simp only [] at h
  split at h
  · simp at h
  · next hlen =>
    split at h
    · simp at h
    · next forecast hpts =>
      split at h
      · simp at h
      · next quantiles hq =>
        split at h
        · simp at h
        · next lp hlp =>
          split at h
          · simp at h
          · next hzero =>
            exact ⟨forecast, quantiles, lp, not_lt.mp hlen, hpts, hq, hlp,
              hzero, (Except.ok.inj h).symm⟩

/-- Combined inversion: each entry of a successful batch response comes from
`finishItem` on the values at its own index. -/
theorem batch_predictions_pointwise {model : Model} {items : List PredReq}
    {resp : BatchResp} {calls : List (ℤ × List (List ℚ))}
    (h : batch_predict model items = (.ok resp, calls)) :
    resp.predictions.length = (batchSymbols items).length ∧
    ∀ n r, resp.predictions.get? n = some r →
      ∃ sym hz pf qv pl lp,
        (batchSymbols items).get? n = some sym ∧
        (batchHorizons items).get? n = some hz ∧
        (model (listMax (batchHorizons items)) (batchInputs items)).points.get? n =
          some pf ∧
        (batchInputs items).get? n = some pl ∧ pl.getLast? = some lp ∧
        r = finishItem sym hz pf qv lp := by
  obtain ⟨hne, results, hbuild, hresp, hcalls⟩ := batch_predict_ok h
  obtain ⟨hlen, hget⟩ := buildResults_eq_some hbuild
  subst hresp
  refine ⟨by simpa using hlen, ?_⟩
  intro n r hr
  have hn : n < results.length := by
    by_contra hc
    rw [List.get?_eq_none.mpr (not_lt.mp hc)] at hr
    exact Option.noConfusion hr
  have hrange : (List.range (batchSymbols items).length).get? n = some n :=
    List.get?_range (by simpa [hlen] using hn)
  obtain ⟨r', hr', hproc⟩ := hget n n hrange
  rw [hr] at hr'
  obtain ⟨sym, hz, pf, qv, pl, lp, hsym, hhz, hpf, hpl, hlp, hfin⟩ :=
    processItem_eq_some hproc
  exact ⟨sym, hz, pf, qv, pl, lp, hsym, hhz, hpf, hpl, hlp,
    (Option.some.inj hr') ▸ hfin⟩

/-! ## Demo models and inputs used by the concrete witnesses -/

/-- A model that forecasts the constant 100 for every requested step. -/
def constModel : Model := fun h inputs =>
  { points := inputs.map (fun _ => List.replicate h.toNat 100), quants := none }

/-- A model that returns an empty point forecast for every input. -/
def emptyModel : Model := fun _ inputs =>
  { points := inputs.map (fun _ => []), quants := none }

/-- 30 data points at the constant price 100. -/
def demoPrices : List ℚ := List.replicate 30 100

theorem demoPrices_length : demoPrices.length = 30 := by
  simp [demoPrices]

theorem demoPrices_getLast? : demoPrices.getLast? = some 100 :=
  getLast?_replicate 30 100 (by norm_num)

theorem round2_zero : round2 0 = 0 := by
  norm_num [round2, roundHalfEven]

theorem round2_hundred : round2 100 = 100 := by
  norm_num [round2, roundHalfEven]

theorem direction_zero : direction 0 = "neutral" := by
  norm_num [direction]

theorem conf_none_zero : calculate_confidence none 0 = 50 := by
  show heuristicConf 0 = 50
  norm_num [heuristicConf]

/-- Evaluation of the single handler on the demo prices under `emptyModel`,
for an arbitrary symbol and horizon field. -/
theorem predict_emptyModel (sym : Option String) (hz : Option ℤ) :
    predict emptyModel ⟨sym, demoPrices, hz⟩ =
      .ok { symbol := sym.getD "UNKNOWN", direction := "neutral", confidence := 50,
            predicted_change := 0, predicted_price := round2 100, forecast := [],
            quantiles := none, horizon := normalizeHorizon (hz.getD 7),
            model_version := "timesfm-2.5-200m" } := by
  unfold predict
  simp only [demoPrices_length]
  rw [if_neg (by norm_num)]
  simp only [emptyModel, List.map_cons, List.map_nil, List.get?_cons_zero,
    predictQuants, demoPrices_getLast?]
  rw [if_neg (by norm_num : ¬ (100 : ℚ) = 0)]
  simp only [finishSingle, List.getLastD_nil, List.map_nil]
  have hpc : ((100 : ℚ) - 100) / 100 * 100 = 0 := by norm_num
  rw [hpc, direction_zero, conf_none_zero, round2_zero]

/-! ## C3 -/

/-- C3 counterexample: the single-prediction response carries a `quantiles`
key, but an element of the batch response's `predictions` list does not —
the per-symbol result shapes of the two endpoints differ, refuting the
claim that every per-symbol result uniformly carries the optional
quantiles field. -/
theorem batch_result_missing_quantiles_key :
    singleResultKeys.contains "quantiles" = true ∧
    batchItemKeys.contains "quantiles" = false := by decide

/-- C3 (amended): batch per-item results carry exactly the single-result keys
minus `quantiles`, `model_version` and `timestamp` (the latter two appear
once at batch level, `quantiles` is dropped entirely in batch mode); only
the single-prediction response exposes the quantiles field. -/
theorem result_shape_relation :
    batchItemKeys = singleResultKeys.filter
      (fun k => !(k == "quantiles" || k == "model_version" || k == "timestamp")) ∧
    singleResultKeys.contains "quantiles" = true := by decide

/-! ## C9 -/

/-- C9: an empty batch, or a batch whose items are all dropped by the
30-price check, fails with a 400-equivalent validation error before any
model call (the recorded call list is empty), and a successful batch never
has an empty predictions list. -/
theorem empty_batch_rejected (model : Model) (items : List PredReq) :
    (items = [] → batch_predict model items = (.error .noRequests, [])) ∧
    (items ≠ [] → (∀ it ∈ items, it.prices.length < 30) →
      batch_predict model items = (.error .noValidInputs, [])) ∧
    (∀ resp calls, batch_predict model items = (.ok resp, calls) →
      resp.predictions ≠ []) := by
  refine ⟨?_, ?_, ?_⟩
  · rintro rfl
    exact batch_predict_nil model
  · intro hne hall
    exact batch_predict_all_dropped hne hall
  · intro resp calls h hempty
    obtain ⟨hne, _, _, _, _⟩ := batch_predict_ok h
    obtain ⟨hplen, _⟩ := batch_predictions_pointwise h
    apply hne
    have hlen0 : (batchSymbols items).length = 0 := by
      rw [← hplen, hempty]
      rfl
    have hacc : acceptedItems items = [] :=
      List.length_eq_zero.mp (by simpa [batchSymbols] using hlen0)
    simp [batchInputs, hacc]

/-- Witness for C9: the empty batch against the demo model. -/
theorem empty_batch_rejected_witness :
    batch_predict constModel [] = (.error .noRequests, []) :=
  (empty_batch_rejected constModel []).1 rfl

/-! ## C2 -/

/-- C2 counterexample: a batch item with the invalid horizon 5 (which single
mode would coerce to 7, as `normalizeHorizon 5 = 7` shows) is passed to the
model as 5 and reported back with horizon 5 — batch mode performs no
horizon normalization at all. -/
theorem batch_horizon_not_normalized :
    normalizeHorizon 5 = 7 ∧
    batch_predict constModel [⟨some "BTC", demoPrices, some 5⟩] =
      (.ok { predictions := [{ symbol := "BTC", direction := "neutral",
                               confidence := 50, predicted_change := 0,
                               predicted_price := 100,
                               forecast := List.replicate 5 100, horizon := 5 }],
             model_version := "timesfm-2.5-200m" },
       [(5, [demoPrices])]) := by
  constructor
  · decide
  · have hfilter : ([(⟨some "BTC", demoPrices, some 5⟩ : PredReq)].filter validItem) =
        [⟨some "BTC", demoPrices, some 5⟩] := by
      simp [validItem, demoPrices, List.filter_cons]
    have hproc : processItem [List.replicate 5 100] none [demoPrices] ["BTC"] [5] 0 =
        some { symbol := "BTC", direction := "neutral", confidence := 50,
               predicted_change := 0, predicted_price := 100,
               forecast := List.replicate 5 100, horizon := 5 } := by
      simp only [processItem, List.get?, Option.bind_eq_bind, Option.some_bind,
        demoPrices_getLast?]
      norm_num [finishItem, pyTake, direction, calculate_confidence, heuristicConf,
        round2, roundHalfEven, show Int.toNat 5 = 5 from rfl,
        getLast?_replicate 5 (100:ℚ) (by norm_num)]
    simp only [batch_predict, batchSymbols, batchInputs, batchHorizons, acceptedItems,
      hfilter, List.isEmpty_cons, Bool.false_eq_true, if_false, List.map_cons,
      List.map_nil, Option.getD_some, List.isEmpty_nil, listMax, List.foldl_nil,
      constModel, List.length_cons, List.length_nil, List.range_succ, List.range_zero,
      List.nil_append, show Int.toNat 5 = 5 from rfl, buildResults, hproc,
      Option.some_bind, Option.bind_eq_bind]

/-- C2 (amended): in batch mode each item's horizon is used exactly as given
(default 7 when the field is absent), with no normalization — the single
model call uses the maximum of the raw accepted horizons and each returned
per-item horizon field is the raw value; only single-request mode replaces a
horizon outside {1, 7, 30} with 7. -/
theorem horizon_used_raw_in_batch (model : Model) (items : List PredReq)
    (req : PredReq) :
    (∀ resp calls, batch_predict model items = (.ok resp, calls) →
      resp.predictions.map (fun r => r.horizon) = batchHorizons items ∧
      calls = [(listMax (batchHorizons items), batchInputs items)]) ∧
    (∀ r, predict model req = .ok r →
      r.horizon = normalizeHorizon (req.horizon.getD 7)) := by
  constructor
  · intro resp calls h
    obtain ⟨_, _, _, _, hcalls⟩ := batch_predict_ok h
    refine ⟨?_, hcalls⟩
    obtain ⟨hplen, hpt⟩ := batch_predictions_pointwise h
    have hsh : (batchSymbols items).length = (batchHorizons items).length := by
      simp [batchSymbols, batchHorizons]
    apply List.ext
    intro n
    rw [List.get?_map]
    cases hr : resp.predictions.get? n with
    | none =>
      have hn : resp.predictions.length ≤ n := List.get?_eq_none.mp hr
      rw [List.get?_eq_none.mpr (by rw [← hsh, ← hplen]; exact hn)]
      rfl
    | some r =>
      obtain ⟨sym, hz, pf, qv, pl, lp, hsym, hhz, hpf, hpl, hlp, hfin⟩ := hpt n r hr
      rw [hhz, hfin]
      simp [finishItem]
  · intro r h
    obtain ⟨forecast, quantiles, lp, hlen, hpts, hq, hlp, hzero, hfin⟩ := predict_ok h
    rw [hfin]
    simp [finishSingle]

/-- Witness for C2 (amended): a single request with invalid horizon 5 comes
back with horizon `normalizeHorizon 5` (that is, 7). -/
theorem horizon_normalization_witness :
    ({ symbol := "BTC", direction := "neutral", confidence := 50,
       predicted_change := 0, predicted_price := round2 100, forecast := [],
       quantiles := none, horizon := 7,
       model_version := "timesfm-2.5-200m" } : SingleResult).horizon =
      normalizeHorizon 5 :=
  (horizon_used_raw_in_batch emptyModel [] ⟨some "BTC", demoPrices, some 5⟩).2 _
    (by rw [predict_emptyModel (some "BTC") (some 5)]; norm_num [normalizeHorizon])

/-! ## C8 -/

/-- C8: when the model returns an empty point forecast and the last known
price is nonzero, the predicted price falls back to the (rounded) last known
price, the percent change is 0, and the direction is "neutral" — in both the
single handler and the batch per-item loop. -/
theorem empty_forecast_neutral_fallback :
    (∀ (model : Model) (req : PredReq) (r : SingleResult) (lp : ℚ),
      predict model req = .ok r →
      (model (normalizeHorizon (req.horizon.getD 7)) [req.prices]).points.get? 0 =
        some [] →
      req.prices.getLast? = some lp →
      r.predicted_price = round2 lp ∧ r.predicted_change = 0 ∧
        r.direction = "neutral") ∧
    (∀ pts qts inputs symbols horizons i r pf hz pl lp,
      processItem pts qts inputs symbols horizons i = some r →
      pts.get? i = some pf → horizons.get? i = some hz → pyTake pf hz = [] →
      inputs.get? i = some pl → pl.getLast? = some lp → lp ≠ 0 →
      r.predicted_price = round2 lp ∧ r.predicted_change = 0 ∧
        r.direction = "neutral") := by
  have hpc : ∀ lp : ℚ, (lp - lp) / lp * 100 = 0 := fun lp => by
    rw [sub_self, zero_div, zero_mul]
  constructor
  · intro model req r lp h hpts hlp
    obtain ⟨forecast, quantiles, lp', hlen, hpts', hq, hlp', hzero, hfin⟩ := predict_ok h
    rw [hpts] at hpts'
    rw [hlp] at hlp'
    obtain rfl := Option.some.inj hpts'
    obtain rfl := Option.some.inj hlp'
    rw [hfin]
    simp [finishSingle, List.getLastD_nil, hpc, round2_zero, direction_zero]
  · intro pts qts inputs symbols horizons i r pf hz pl lp hproc hpf hhz htake hpl hlp hzero
    obtain ⟨sym, hz', pf', qv, pl', lp', hsym, hhz', hpf', hpl', hlp', hfin⟩ :=
      processItem_eq_some hproc
    rw [hhz] at hhz'
    rw [hpf] at hpf'
    rw [hpl] at hpl'
    obtain rfl := Option.some.inj hhz'
    obtain rfl := Option.some.inj hpf'
    obtain rfl := Option.some.inj hpl'
    rw [hlp] at hlp'
    obtain rfl := Option.some.inj hlp'
    rw [hfin]
    simp [finishItem, htake, List.getLastD_nil, hpc, round2_zero, direction_zero]

/-- Witness for C8: the demo request under the empty-forecast model. -/
theorem empty_forecast_neutral_witness :
    ({ symbol := "BTC", direction := "neutral", confidence := 50,
       predicted_change := 0, predicted_price := round2 100, forecast := [],
       quantiles := none, horizon := 7,
       model_version := "timesfm-2.5-200m" } : SingleResult).predicted_price =
        round2 100 ∧
    ({ symbol := "BTC", direction := "neutral", confidence := 50,
       predicted_change := 0, predicted_price := round2 100, forecast := [],
       quantiles := none, horizon := 7,
       model_version := "timesfm-2.5-200m" } : SingleResult).predicted_change = 0 ∧
    ({ symbol := "BTC", direction := "neutral", confidence := 50,
       predicted_change := 0, predicted_price := round2 100, forecast := [],
       quantiles := none, horizon := 7,
       model_version := "timesfm-2.5-200m" } : SingleResult).direction = "neutral" :=
  (empty_forecast_neutral_fallback).1 emptyModel ⟨some "BTC", demoPrices, some 7⟩ _ 100
    (by rw [predict_emptyModel (some "BTC") (some 7)]; norm_num [normalizeHorizon])
    (by simp [emptyModel])
    demoPrices_getLast?

/-! ## C4 -/

/-- C4: a batch of valid items issues exactly one model call, at the maximum
of the accepted items' horizons, and (for a model answering the requested
horizon) each returned forecast is truncated to its own item's horizon, so
every result's forecast length equals its own horizon, never the batch-wide
maximum. -/
theorem batch_single_call_max_horizon (model : Model) (items : List PredReq)
    (hvalid : acceptedItems items ≠ [])
    (hhor : ∀ it ∈ acceptedItems items,
      it.horizon.getD 7 = 1 ∨ it.horizon.getD 7 = 7 ∨ it.horizon.getD 7 = 30)
    (hmodel : ∀ h inp, ((model h inp).points.length = inp.length) ∧
      ∀ pf ∈ (model h inp).points, pf.length = h.toNat) :
    (batch_predict model items).2 =
      [(listMax (batchHorizons items), batchInputs items)] ∧
    ∀ resp calls, batch_predict model items = (.ok resp, calls) →
      resp.predictions.map (fun r => r.forecast.length) =
        (batchHorizons items).map (fun hz => hz.toNat) := by
  constructor
  · have hitems : ¬ items.isEmpty = true := by
      intro hc
      exact hvalid (by simp [acceptedItems, List.isEmpty_iff.mp hc])
    have hinputs : ¬ (batchInputs items).isEmpty = true := by
      intro hc
      exact hvalid (by simpa [batchInputs] using List.isEmpty_iff.mp hc)
    unfold batch_predict
    simp only []
    rw [if_neg hitems, if_neg hinputs]
    split <;> rfl
  · intro resp calls h
    obtain ⟨hplen, hpt⟩ := batch_predictions_pointwise h
    have hsh : (batchSymbols items).length = (batchHorizons items).length := by
      simp [batchSymbols, batchHorizons]
    apply List.ext
    intro n
    rw [List.get?_map, List.get?_map]
    cases hr : resp.predictions.get? n with
    | none =>
      have hn : resp.predictions.length ≤ n := List.get?_eq_none.mp hr
      rw [List.get?_eq_none.mpr (by rw [← hsh, ← hplen]; exact hn)]
      rfl
    | some r =>
      obtain ⟨sym, hz, pf, qv, pl, lp, hsym, hhz, hpf, hpl, hlp, hfin⟩ := hpt n r hr
      rw [hhz]
      have hz_mem : hz ∈ batchHorizons items := List.get?_mem hhz
      have hz137 : hz = 1 ∨ hz = 7 ∨ hz = 30 := by
        simp only [batchHorizons, List.mem_map] at hz_mem
        obtain ⟨it, hit, rfl⟩ := hz_mem
        exact hhor it hit
      have hz0 : 0 ≤ hz := by rcases hz137 with rfl | rfl | rfl <;> norm_num
      have hzle : hz ≤ listMax (batchHorizons items) := listMax_ge hz_mem
      have hpf_mem : pf ∈
          (model (listMax (batchHorizons items)) (batchInputs items)).points :=
        List.get?_mem hpf
      have hpf_len : pf.length = (listMax (batchHorizons items)).toNat :=
        (hmodel _ _).2 pf hpf_mem
      rw [hfin]
      have hlen2 : (pyTake pf hz).length = hz.toNat :=
        pyTake_length_of_nonneg pf hz hz0
          (by rw [hpf_len]; exact Int.toNat_le_toNat hzle)
      simp [finishItem, hlen2]

/-- Witness for C4: two valid items with horizons 7 and 1 — one call at
horizon 7. -/
theorem batch_single_call_witness :
    (batch_predict constModel
      [⟨some "BTC", demoPrices, some 7⟩, ⟨some "ETH", demoPrices, some 1⟩]).2 =
      [(7, [demoPrices, demoPrices])] := by
  have hm : ∀ h inp, ((constModel h inp).points.length = inp.length) ∧
      ∀ pf ∈ (constModel h inp).points, pf.length = h.toNat := by
    intro h inp
    refine ⟨by simp [constModel], ?_⟩
    intro pf hpf
    simp only [constModel, List.mem_map] at hpf
    obtain ⟨a, ha, rfl⟩ := hpf
    simp
  have h := (batch_single_call_max_horizon constModel
    [⟨some "BTC", demoPrices, some 7⟩, ⟨some "ETH", demoPrices, some 1⟩]
    (by simp [acceptedItems, validItem, demoPrices, List.filter_cons])
    (by
      intro it hit
      simp only [acceptedItems, validItem, demoPrices, List.filter_cons] at hit
      norm_num at hit
      rcases hit with rfl | rfl
      · norm_num
      · norm_num)
    hm).1
  rw [h]
  norm_num [batchHorizons, batchInputs, acceptedItems, validItem, demoPrices,
    List.filter_cons, listMax, max_def]

end Spectra
